import Mathlib

/-!
Shallow embedding of the SSH session pool and session execution logic of
`ssh_mcp_bridge` (files `core/ssh_session.py`, `core/session_manager.py`,
`models/config.py`).  Strings are modelled as `List Char`; Python's in-place
mutation of the lists stored in the pool dictionary is modelled by explicit
pool-update functions; network and process effects (connect success, command
success, received bytes, exit status) are oracle parameters.
-/

set_option maxHeartbeats 1000000

namespace SshMcpBridge

abbrev Str := List Char

def chars (s : String) : Str := s.data

/-- Characters removed by Python's default `str.strip()` (ASCII whitespace). -/
def isPySpace (c : Char) : Bool :=
  c = ' ' || c = '\t' || c = '\n' || c = '\r' || c = Char.ofNat 11 || c = Char.ofNat 12

def stripLeft (s : Str) : Str := s.dropWhile isPySpace

def stripRight (s : Str) : Str := (s.reverse.dropWhile isPySpace).reverse

/-- Python `s.strip()`. -/
def pyStrip (s : Str) : Str := stripLeft (stripRight s)

/-- Python `s.find(pat)`: index of the first occurrence of `pat` in `s`,
`none` when absent (`-1` in Python). -/
def strFind (pat : Str) : Str → Option Nat
  | [] => if pat.isEmpty then some 0 else none
  | c :: t => if pat.isPrefixOf (c :: t) then some 0 else (strFind pat t).map (· + 1)

/-- Python `pat in s` (substring containment). -/
def containsSub (s pat : Str) : Bool := (strFind pat s).isSome

/-- Python `s.split("\n")`. -/
def splitLines : Str → List Str
  | [] => [[]]
  | c :: rest =>
    if c = '\n' then [] :: splitLines rest
    else
      match splitLines rest with
      | [] => [[c]]
      | l :: ls => (c :: l) :: ls

/-- Python `"\n".join(lines)`. -/
def joinLines (ls : List Str) : Str := List.intercalate ['\n'] ls

/-- Python `" ".join(ws)`. -/
def joinSp (ws : List Str) : Str := List.intercalate [' '] ws

def splitWsGo : Str → Str → List Str
  | [], acc => if acc.isEmpty then [] else [acc.reverse]
  | c :: rest, acc =>
    if isPySpace c then
      if acc.isEmpty then splitWsGo rest [] else acc.reverse :: splitWsGo rest []
    else splitWsGo rest (c :: acc)

/-- Python `s.split()` (split on whitespace runs, no empty words). -/
def splitWs (s : Str) : List Str := splitWsGo s []

/-! ## Session-level execution logic (`core/ssh_session.py`) -/

/-- `PAGER_DISABLE_ENV`, in dict insertion order. -/
def PAGER_DISABLE_ENV : List (Str × Str) :=
  [(chars "PAGER", chars "cat"), (chars "SYSTEMD_PAGER", chars ""),
   (chars "GIT_PAGER", chars "cat"), (chars "LESS", chars "-F -X -R"),
   (chars "MANPAGER", chars "cat"), (chars "BAT_PAGER", chars "")]

/-- `PAGER_COMMANDS`. -/
def PAGER_COMMANDS : List (Str × Str) :=
  [(chars "journalctl", chars "--no-pager"), (chars "systemctl", chars "--no-pager"),
   (chars "git", chars "--no-pager")]

def singleQuote : Char := Char.ofNat 39

/-- `f"{k}='{v}'"` for one environment entry. -/
def envEntry (kv : Str × Str) : Str :=
  kv.1 ++ '=' :: singleQuote :: kv.2 ++ [singleQuote]

/-- `" ".join([f"{k}='{v}'" for k, v in PAGER_DISABLE_ENV.items()])`. -/
def envPrefixStr : Str := joinSp (PAGER_DISABLE_ENV.map envEntry)

/-- `SshSession._preprocess_command`. -/
def _preprocess_command (disable_pager : Bool) (command : Str) : Str :=
  if !disable_pager then command
  else
    let command1 :=
      match splitWs (pyStrip command) with
      | [] => command
      | base_cmd :: rest =>
        match PAGER_COMMANDS.find? (fun p => p.1 == base_cmd) with
        | none => command
        | some p =>
          if !p.2.isEmpty && !containsSub command p.2 then
            base_cmd ++ ' ' :: p.2 ++ ' ' :: joinSp rest
          else command
    chars "export " ++ envPrefixStr ++ ';' :: ' ' :: command1

/-- The `Result` dictionary built by the two execution strategies. -/
structure CmdResult where
  host : String
  command : Str
  output : Str
  success : Bool
  exit_status : Option Int := none
deriving Repr, DecidableEq

/-- `SshSession._execute_exec_mode`, as a function of the captured
stdout/stderr text and the exit status. -/
def _execute_exec_mode (hostName : String) (command : Str)
    (stdout_data stderr_data : Str) (exit_status : Int) : CmdResult :=
  let output := if stderr_data.isEmpty then stdout_data else stdout_data ++ '\n' :: stderr_data
  let success : Bool := exit_status == 0
  { host := hostName, command := command, output := pyStrip output, success := success,
    exit_status := if success then none else some exit_status }

/-- Marker extraction step of `_execute_shell_mode` (lines 265–271). -/
def extractBetween (output sm em : Str) : Str :=
  if containsSub output sm && containsSub output em then
    let start_idx := (strFind sm output).getD 0 + sm.length
    let end_idx := (strFind em output).getD 0
    (output.take end_idx).drop start_idx
  else if containsSub output em then
    output.take ((strFind em output).getD 0)
  else output

/-- The line-filtering loop of `_execute_shell_mode` (lines 273–283),
with `acc` playing `cleaned_lines`. -/
def cleanLoop (cmdStripped sm em : Str) : List Str → List Str → List Str
  | acc, [] => acc
  | acc, l :: rest =>
    if acc.isEmpty && (pyStrip l).isEmpty then cleanLoop cmdStripped sm em acc rest
    else if containsSub l cmdStripped && acc.isEmpty then cleanLoop cmdStripped sm em acc rest
    else if containsSub l sm || containsSub l em then cleanLoop cmdStripped sm em acc rest
    else cleanLoop cmdStripped sm em (acc ++ [l]) rest

/-- Trailing-blank-line removal of `_execute_shell_mode` (lines 285–286). -/
def dropTrailingBlank (ls : List Str) : List Str :=
  (ls.reverse.dropWhile (fun l => (pyStrip l).isEmpty)).reverse

/-- Output cleanup of `_execute_shell_mode` (lines 273–288). -/
def cleanOutput (command sm em extracted : Str) : Str :=
  joinLines (dropTrailingBlank (cleanLoop (pyStrip command) sm em [] (splitLines extracted)))

/-- `SshSession._execute_shell_mode`, as a function of the accumulated raw
buffer read from the channel (the returning path; timeouts raise instead). -/
def _execute_shell_mode (hostName : String) (command sm em rawBuffer : Str) : CmdResult :=
  { host := hostName, command := command,
    output := cleanOutput command sm em (extractBetween rawBuffer sm em),
    success := true }

/-! ## Configuration (`models/config.py`) -/

structure HostConfig where
  name : String
  description : String := ""
  execution_mode : String := "exec"
  disable_pager : Bool := true
deriving Repr, DecidableEq

structure SessionConfig where
  idle_timeout : Nat := 30
  max_sessions_per_host : Nat := 5
deriving Repr, DecidableEq

structure Config where
  hosts : List HostConfig
  session : SessionConfig
deriving Repr, DecidableEq

/-- `Config.get_host`. -/
def Config.get_host (c : Config) (name : String) : Option HostConfig :=
  c.hosts.find? (fun h => h.name == name)

/-! ## Pool state (`core/session_manager.py`)

A `Session` models the pool-relevant state of an `SshSession` object; `sid`
stands for Python object identity.  The pool dictionary is an insertion-ordered
association list, as a Python dict is. -/

structure Session where
  sid : Nat
  hostName : String
  connected : Bool
  last_access : Nat
deriving Repr, DecidableEq

/-- `SshSession.close`: handles are cleared and `connected` is set to false. -/
def closeS (s : Session) : Session := { s with connected := false }

/-- `SshSession.is_idle`. -/
def is_idle (timeout_minutes now : Nat) (s : Session) : Bool :=
  timeout_minutes * 60 < now - s.last_access

abbrev Pool := List (String × List Session)

/-- The key test `host_name == e` used on dictionary entries. -/
def keyIs (host : String) : String × List Session → Bool := fun e => e.1 == host

/-- `self.sessions.get(host_name, [])`. -/
def poolGet (pool : Pool) (host : String) : List Session :=
  ((pool.find? (keyIs host)).map Prod.snd).getD []

/-- `self.sessions[host_name] = ss`: update in place when the key exists,
append otherwise. -/
def poolSet (pool : Pool) (host : String) (ss : List Session) : Pool :=
  if (pool.find? (keyIs host)).isSome then
    pool.map (fun e => if e.1 == host then (e.1, ss) else e)
  else pool ++ [(host, ss)]

/-- In-place mutation of one session object (identified by `sid`) that sits
inside the pool's list for `host`. -/
def poolUpdateSession (pool : Pool) (host : String) (sid : Nat)
    (f : Session → Session) : Pool :=
  pool.map (fun e =>
    if e.1 == host then (e.1, e.2.map (fun s => if s.sid == sid then f s else s)) else e)

/-- Outcome of `_get_or_create_session`: `ok` is the returned session
(`none` when an exception propagates), `pool` the dictionary afterwards, and
`evicted` the popped-and-closed oldest session, when one was evicted. -/
structure GocResult where
  ok : Option Session
  pool : Pool
  evicted : Option Session
deriving Repr, DecidableEq

/-- `SshSessionManager._get_or_create_session`.  `freshId`/`now` identify the
newly constructed session; `connectOk` is the oracle for `session.connect()`.
`host_sessions.pop(0)` mutates the list object stored in the dictionary, so the
shortened list is visible in the pool even when the later connect raises. -/
def _get_or_create_session (maxS : Nat) (host : String) (freshId now : Nat)
    (connectOk : Bool) (pool : Pool) : GocResult :=
  let hs := poolGet pool host
  match hs.find? (fun s => s.connected) with
  | some s => ⟨some s, pool, none⟩
  | none =>
    if maxS ≤ hs.length then
      match hs with
      | [] => ⟨none, pool, none⟩
      | oldest :: rest =>
        let pool1 := poolSet pool host rest
        if connectOk then
          ⟨some ⟨freshId, host, true, now⟩,
           poolSet pool1 host (rest ++ [⟨freshId, host, true, now⟩]),
           some (closeS oldest)⟩
        else ⟨none, pool1, some (closeS oldest)⟩
    else
      if connectOk then
        ⟨some ⟨freshId, host, true, now⟩,
         poolSet pool host (hs ++ [⟨freshId, host, true, now⟩]), none⟩
      else ⟨none, pool, none⟩

inductive ExecErr where
  | hostNotFound
  | connectionError
  | commandError
deriving Repr, DecidableEq

structure ExecOutcome where
  result : Except ExecErr CmdResult
  pool : Pool
deriving Repr

/-- `SshSessionManager.execute_command` composed with
`SshSession.execute_command`'s pool-visible effects: `connectOk` is the oracle
for connection establishment, `execOk` for the strategy call, `res` the result
the strategy would return.  On a strategy failure the session object is closed
in place and the exception re-raised; the pool mapping itself is not edited. -/
def manager_execute_command (cfg : Config) (host : String) (freshId now : Nat)
    (connectOk execOk : Bool) (res : CmdResult) (pool : Pool) : ExecOutcome :=
  match cfg.get_host host with
  | none => ⟨.error .hostNotFound, pool⟩
  | some _ =>
    let g := _get_or_create_session cfg.session.max_sessions_per_host host freshId now
      connectOk pool
    match g.ok with
    | none => ⟨.error .connectionError, g.pool⟩
    | some s =>
      let pool1 := poolUpdateSession g.pool host s.sid
        (fun t => { t with last_access := now })
      if execOk then ⟨.ok res, pool1⟩
      else ⟨.error .commandError, poolUpdateSession pool1 host s.sid closeS⟩

/-- `SshSessionManager.close_session`: returns the pool afterwards, the
sessions that were closed, and the message. -/
def close_session (host : String) (pool : Pool) : Pool × List Session × String :=
  match pool.find? (keyIs host) with
  | some e =>
    (pool.eraseP (keyIs host), e.2.map closeS, "Session closed successfully")
  | none => (pool, [], "No active session found")

/-- Inner loop of `_cleanup_idle_sessions` over one host's list: returns
(`active_sessions`, closed sessions). -/
def cleanupSessions (tm now : Nat) : List Session → List Session × List Session
  | [] => ([], [])
  | s :: rest =>
    let r := cleanupSessions tm now rest
    if is_idle tm now s then (r.1, closeS s :: r.2) else (s :: r.1, r.2)

/-- `SshSessionManager._cleanup_idle_sessions`: returns the pool afterwards
and every session that was closed. -/
def _cleanup_idle_sessions (tm now : Nat) : Pool → Pool × List Session
  | [] => ([], [])
  | (h, ss) :: rest =>
    let a := cleanupSessions tm now ss
    let r := _cleanup_idle_sessions tm now rest
    (if a.1.isEmpty then r.1 else (h, a.1) :: r.1, a.2 ++ r.2)

/-! ## Helper lemmas -/

theorem keyIs_eq_true {host : String} {e : String × List Session} :
    keyIs host e = true ↔ e.1 = host := by
  simp [keyIs]

theorem keyIs_eq_false {host : String} {e : String × List Session} :
    keyIs host e = false ↔ e.1 ≠ host := by
  simp [keyIs]

theorem find?_map_key (g : (String × List Session) → String × List Session)
    (hk : ∀ e, (g e).1 = e.1) (pool : Pool) (h2 : String) :
    (pool.map g).find? (keyIs h2) = (pool.find? (keyIs h2)).map g := by
  induction pool with
  | nil => rfl
  | cons e rest ih =>
    rw [List.map_cons]
    by_cases hb : keyIs h2 e = true
    · rw [List.find?_cons_of_pos (p := keyIs h2) _
          (show keyIs h2 (g e) = true by simp only [keyIs, hk e]; exact hb),
        List.find?_cons_of_pos (p := keyIs h2) _ hb]
      rfl
    · rw [List.find?_cons_of_neg (p := keyIs h2) _
          (show ¬keyIs h2 (g e) = true by simp only [keyIs, hk e]; exact hb),
        List.find?_cons_of_neg (p := keyIs h2) _ hb, ih]

theorem poolGet_map_key (g : (String × List Session) → String × List Session)
    (hk : ∀ e, (g e).1 = e.1) (pool : Pool) (h2 : String) :
    poolGet (pool.map g) h2 =
      (((pool.find? (keyIs h2)).map g).map Prod.snd).getD [] := by
  rw [poolGet, find?_map_key g hk]

theorem poolSetFun_key (host : String) (ss : List Session)
    (e : String × List Session) :
    ((if e.1 == host then (e.1, ss) else e) : String × List Session).1 = e.1 := by
  by_cases h : (e.1 == host) = true <;> simp [h]

theorem poolUpdateFun_key (host : String) (sid : Nat) (f : Session → Session)
    (e : String × List Session) :
    ((if e.1 == host then (e.1, e.2.map fun s => if s.sid == sid then f s else s) else e) :
      String × List Session).1 = e.1 := by
  by_cases h : (e.1 == host) = true <;> simp [h]

theorem poolGet_poolSet_self (pool : Pool) (host : String) (ss : List Session) :
    poolGet (poolSet pool host ss) host = ss := by
  unfold poolSet
  cases he : pool.find? (keyIs host) with
  | some e =>
    simp only [he, Option.isSome_some, if_true]
    rw [poolGet_map_key _ (poolSetFun_key host ss), he]
    have hpe : keyIs host e = true := List.find?_some he
    rw [keyIs_eq_true] at hpe
    simp [keyIs, hpe]
  | none =>
    simp only [he, Option.isSome_none, Bool.false_eq_true, if_false]
    rw [poolGet, List.find?_append, he]
    simp [keyIs]

theorem poolGet_poolSet_ne (pool : Pool) (host h2 : String) (ss : List Session)
    (hne : h2 ≠ host) :
    poolGet (poolSet pool host ss) h2 = poolGet pool h2 := by
  unfold poolSet
  cases he : pool.find? (keyIs host) with
  | some e =>
    simp only [he, Option.isSome_some, if_true]
    rw [poolGet_map_key _ (poolSetFun_key host ss), poolGet]
    cases h2e : pool.find? (keyIs h2) with
    | none => simp
    | some e2 =>
      have hpe : keyIs h2 e2 = true := List.find?_some h2e
      rw [keyIs_eq_true] at hpe
      have hneq : (e2.1 == host) = false := by
        simp only [beq_eq_false_iff_ne, ne_eq]
        rw [hpe]; exact hne
      have hne2 : ¬(e2.1 = host) := by rw [hpe]; exact hne
      simp [hneq, hne2]
  | none =>
    simp only [he, Option.isSome_none, Bool.false_eq_true, if_false]
    rw [poolGet, List.find?_append]
    have hsingle : ([((host, ss) : String × List Session)].find? (keyIs h2)) = none := by
      simp [keyIs]
      exact Ne.symm hne
    rw [hsingle, poolGet]
    cases pool.find? (keyIs h2) <;> simp

theorem keys_poolSet_of_isSome (pool : Pool) (host : String) (ss : List Session)
    (hs : (pool.find? (keyIs host)).isSome) :
    (poolSet pool host ss).map Prod.fst = pool.map Prod.fst := by
  unfold poolSet
  simp only [hs, if_true, List.map_map]
  apply List.map_congr_left
  intro e _
  exact poolSetFun_key host ss e

theorem mem_keys_of_find?_isSome (pool : Pool) (host : String)
    (hs : (pool.find? (keyIs host)).isSome) :
    host ∈ pool.map Prod.fst := by
  obtain ⟨e, he⟩ := Option.isSome_iff_exists.mp hs
  have hpe : keyIs host e = true := List.find?_some he
  rw [keyIs_eq_true] at hpe
  have hmem : e ∈ pool := List.mem_of_find?_eq_some he
  rw [← hpe]
  exact List.mem_map_of_mem Prod.fst hmem

theorem poolGet_poolUpdateSession_self (pool : Pool) (host : String) (sid : Nat)
    (f : Session → Session) :
    poolGet (poolUpdateSession pool host sid f) host =
      (poolGet pool host).map (fun s => if s.sid == sid then f s else s) := by
  unfold poolUpdateSession
  rw [poolGet_map_key _ (poolUpdateFun_key host sid f), poolGet]
  cases he : pool.find? (keyIs host) with
  | none => simp
  | some e =>
    have hpe : keyIs host e = true := List.find?_some he
    rw [keyIs_eq_true] at hpe
    simp [hpe]

theorem isPySpace_newline : isPySpace '\n' = true := by decide

theorem pyStrip_append_newline (s : Str) : pyStrip (s ++ ['\n']) = pyStrip s := by
  unfold pyStrip stripRight
  rw [List.reverse_append]
  simp [List.dropWhile_cons, isPySpace_newline]

/-! ## Claim theorems -/

/-- C4: In exec mode, the Result's output is stdout with stderr concatenated
after it separated by a newline, the whole trimmed; `success` holds exactly
when the exit status is 0; and the `exit_status` field is present exactly when
`success` is false. -/
theorem exec_mode_result_spec (hostName : String) (command stdout_data stderr_data : Str)
    (exit_status : Int) :
    ((_execute_exec_mode hostName command stdout_data stderr_data exit_status).success = true ↔
        exit_status = 0) ∧
    ((_execute_exec_mode hostName command stdout_data stderr_data exit_status).exit_status = none ↔
        (_execute_exec_mode hostName command stdout_data stderr_data exit_status).success = true) ∧
    ((_execute_exec_mode hostName command stdout_data stderr_data exit_status).success = false →
        (_execute_exec_mode hostName command stdout_data stderr_data exit_status).exit_status =
          some exit_status) ∧
    (_execute_exec_mode hostName command stdout_data stderr_data exit_status).output =
      pyStrip (stdout_data ++ '\n' :: stderr_data) := by
  unfold _execute_exec_mode
  refine ⟨by simp, ?_, ?_, ?_⟩
  · by_cases h : exit_status = 0 <;> simp [h]
  · by_cases h : exit_status = 0 <;> simp [h]
  · cases hs : stderr_data with
    | nil => simp [pyStrip_append_newline]
    | cons c t => simp

/-- C4 witness: the two examples from the claim, exit 0 with stdout `"ok\n"`
and exit 2 with stderr `"bad\n"`. -/
theorem exec_mode_result_spec_witness :
    (_execute_exec_mode "h" (chars "x") (chars "ok\n") (chars "") 0).success = true ∧
    (_execute_exec_mode "h" (chars "x") (chars "ok\n") (chars "") 0).output = chars "ok" ∧
    (_execute_exec_mode "h" (chars "x") (chars "ok\n") (chars "") 0).exit_status = none ∧
    (_execute_exec_mode "h" (chars "y") (chars "") (chars "bad\n") 2).success = false ∧
    (_execute_exec_mode "h" (chars "y") (chars "") (chars "bad\n") 2).exit_status = some 2 ∧
    containsSub (_execute_exec_mode "h" (chars "y") (chars "") (chars "bad\n") 2).output
      (chars "bad") = true := by
  refine ⟨(exec_mode_result_spec "h" (chars "x") (chars "ok\n") (chars "") 0).1.mpr rfl,
    by decide, by decide, by decide, by decide, by decide⟩

/-- C5: every shell-mode (interactive) execution that returns a Result reports
`success = true` and carries no exit-status field. -/
theorem shell_mode_always_success (hostName : String) (command sm em rawBuffer : Str) :
    (_execute_shell_mode hostName command sm em rawBuffer).success = true ∧
    (_execute_shell_mode hostName command sm em rawBuffer).exit_status = none :=
  ⟨rfl, rfl⟩

/-- C9: `execute_command` fails with the host-not-found error exactly when the
host is absent from the configuration, and in that case the pool is left
unchanged. -/
theorem execute_command_host_not_found_iff (cfg : Config) (host : String)
    (freshId now : Nat) (connectOk execOk : Bool) (res : CmdResult) (pool : Pool) :
    ((manager_execute_command cfg host freshId now connectOk execOk res pool).result =
        Except.error ExecErr.hostNotFound ↔ cfg.get_host host = none) ∧
    (cfg.get_host host = none →
      (manager_execute_command cfg host freshId now connectOk execOk res pool).pool = pool) := by
  unfold manager_execute_command
  cases hg : cfg.get_host host with
  | none => simp
  | some hc =>
    simp only [hg]
    refine ⟨⟨fun h => ?_, fun h => by simp at h⟩, fun h => by simp at h⟩
    cases hok : (_get_or_create_session cfg.session.max_sessions_per_host host freshId now
        connectOk pool).ok with
    | none => simp only [hok] at h; cases h
    | some s =>
      simp only [hok] at h
      cases execOk <;> simp at h

/-- C9 witness: an unknown host name on an empty configuration. -/
theorem execute_command_host_not_found_iff_witness :
    (manager_execute_command ⟨[], ⟨30, 5⟩⟩ "a" 0 0 true true
        ⟨"a", [], [], true, none⟩ []).result = Except.error ExecErr.hostNotFound :=
  (execute_command_host_not_found_iff ⟨[], ⟨30, 5⟩⟩ "a" 0 0 true true
    ⟨"a", [], [], true, none⟩ []).1.mpr rfl

/-- C6: with pager suppression enabled and a known pager-driving first token
whose no-pager flag is absent from the command, the transmitted command is the
original with the flag inserted after the program name, wrapped in the fixed
environment-export prefix; the Result's `command` field always holds the
original text in both modes. -/
theorem preprocess_pager_spec (command base flag : Str) (rest : List Str)
    (h1 : splitWs (pyStrip command) = base :: rest)
    (h2 : PAGER_COMMANDS.find? (fun p => p.1 == base) = some (base, flag))
    (h3 : flag.isEmpty = false)
    (h4 : containsSub command flag = false) :
    _preprocess_command true command =
      chars "export " ++ envPrefixStr ++ ';' :: ' ' ::
        (base ++ ' ' :: flag ++ ' ' :: joinSp rest) ∧
    (∀ (hostName : String) (stdout_data stderr_data : Str) (exit_status : Int),
      (_execute_exec_mode hostName command stdout_data stderr_data exit_status).command =
        command) ∧
    (∀ (hostName : String) (sm em rawBuffer : Str),
      (_execute_shell_mode hostName command sm em rawBuffer).command = command) := by
  refine ⟨?_, fun _ _ _ _ => rfl, fun _ _ _ _ => rfl⟩
  unfold _preprocess_command
  simp only [h1, h2, h3, h4, Bool.not_true, Bool.not_false, Bool.and_self, if_true, if_false,
    Bool.false_eq_true]

/-- C6 witness: `journalctl -u foo` gets `--no-pager` inserted and the export
prefix prepended. -/
theorem preprocess_pager_spec_witness :
    _preprocess_command true (chars "journalctl -u foo") =
      chars "export " ++ envPrefixStr ++ ';' :: ' ' :: chars "journalctl --no-pager -u foo" := by
  have h := preprocess_pager_spec (chars "journalctl -u foo") (chars "journalctl")
    (chars "--no-pager") [chars "-u", chars "foo"] (by decide) (by decide) (by decide) (by decide)
  rw [h.1]
  decide

theorem find?_eraseP_key_nodup (pool : Pool) (host : String)
    (hnd : (pool.map Prod.fst).Nodup) :
    (pool.eraseP (keyIs host)).find? (keyIs host) = none := by
  induction pool with
  | nil => simp
  | cons e rest ih =>
    rw [List.map_cons, List.nodup_cons] at hnd
    by_cases hb : keyIs host e = true
    · rw [List.eraseP_cons_of_pos hb, List.find?_eq_none]
      intro x hx hpx
      have hx1 : x.1 = host := keyIs_eq_true.mp hpx
      have he1 : e.1 = host := keyIs_eq_true.mp hb
      exact hnd.1 (he1 ▸ hx1 ▸ List.mem_map_of_mem Prod.fst hx)
    · rw [List.eraseP_cons_of_neg hb, List.find?_cons_of_neg _ hb]
      exact ih hnd.2

theorem poolGet_eraseP_key_ne (pool : Pool) (host h2 : String) (hne : h2 ≠ host) :
    poolGet (pool.eraseP (keyIs host)) h2 = poolGet pool h2 := by
  induction pool with
  | nil => simp
  | cons e rest ih =>
    by_cases hb : keyIs host e = true
    · rw [List.eraseP_cons_of_pos hb]
      have hb2 : ¬keyIs h2 e = true := by
        rw [keyIs_eq_true, keyIs_eq_true.mp hb]
        exact Ne.symm hne
      rw [poolGet, poolGet, List.find?_cons_of_neg _ hb2]
    · rw [List.eraseP_cons_of_neg hb]
      by_cases hb2 : keyIs h2 e = true
      · rw [poolGet, poolGet, List.find?_cons_of_pos _ hb2, List.find?_cons_of_pos _ hb2]
      · rw [poolGet, poolGet, List.find?_cons_of_neg _ hb2, List.find?_cons_of_neg _ hb2]
        exact ih

/-- C8: `close_session` never raises: with no entry for the host it reports
"no active session" and leaves the pool unchanged; with an entry it closes
every session in it, deletes the entry (leaving other hosts untouched), and
reports success; an immediate second call takes the no-active branch. -/
theorem close_session_spec (host : String) (pool : Pool)
    (hnd : (pool.map Prod.fst).Nodup) :
    (pool.find? (keyIs host) = none →
        close_session host pool = (pool, [], "No active session found")) ∧
    (∀ e, pool.find? (keyIs host) = some e →
        (close_session host pool).2.2 = "Session closed successfully" ∧
        (close_session host pool).2.1 = e.2.map closeS ∧
        (∀ s ∈ (close_session host pool).2.1, s.connected = false) ∧
        (close_session host pool).1.find? (keyIs host) = none ∧
        (∀ h2, h2 ≠ host → poolGet (close_session host pool).1 h2 = poolGet pool h2)) ∧
    close_session host (close_session host pool).1 =
      ((close_session host pool).1, [], "No active session found") := by
  cases he : pool.find? (keyIs host) with
  | none =>
    have hcs : close_session host pool = (pool, [], "No active session found") := by
      unfold close_session
      rw [he]
    refine ⟨fun _ => hcs, fun e h => ?_, ?_⟩
    · exact Option.noConfusion h
    · rw [hcs]
      exact hcs
  | some e =>
    have hcs : close_session host pool =
        (pool.eraseP (keyIs host), e.2.map closeS, "Session closed successfully") := by
      unfold close_session
      rw [he]
    have herase : (pool.eraseP (keyIs host)).find? (keyIs host) = none :=
      find?_eraseP_key_nodup pool host hnd
    refine ⟨fun h => ?_, ?_, ?_⟩
    · exact Option.noConfusion h
    · intro e2 h2
      cases h2
      rw [hcs]
      refine ⟨rfl, rfl, ?_, herase, ?_⟩
      · intro s hs
        obtain ⟨t, _, rfl⟩ := List.mem_map.mp hs
        rfl
      · intro h2 hne
        exact poolGet_eraseP_key_ne pool host h2 hne
    · rw [hcs]
      unfold close_session
      rw [herase]

/-- C8 witness: a pool with one entry for host `a`; closing, then closing
again on an empty mapping. -/
theorem close_session_spec_witness :
    close_session "a" [("a", [⟨0, "a", true, 5⟩])] =
      ([], [⟨0, "a", false, 5⟩], "Session closed successfully") ∧
    close_session "b" [("a", [⟨0, "a", true, 5⟩])] =
      ([("a", [⟨0, "a", true, 5⟩])], [], "No active session found") ∧
    close_session "a" (close_session "a" [("a", [⟨0, "a", true, 5⟩])]).1 =
      ([], [], "No active session found") := by
  have h := close_session_spec "a" [("a", [⟨0, "a", true, 5⟩])] (by decide)
  have hb := close_session_spec "b" [("a", [⟨0, "a", true, 5⟩])] (by decide)
  refine ⟨by decide, hb.1 (by decide), ?_⟩
  have h2 := h.2.2
  rw [h2]
  decide

theorem find?_isSome_of_poolGet_ne_nil (pool : Pool) (host : String)
    (h : poolGet pool host ≠ []) : (pool.find? (keyIs host)).isSome := by
  cases he : pool.find? (keyIs host) with
  | none =>
    exfalso
    apply h
    rw [poolGet, he]
    rfl
  | some e => rfl

theorem find?_connected_eq_none (ss : List Session)
    (hconn : ∀ s ∈ ss, s.connected = false) :
    ss.find? (fun s => s.connected) = none := by
  rw [List.find?_eq_none]
  intro x hx
  simp [hconn x hx]

/-- C10: when a host's list is full with no connected session and the connect
attempt for the replacement fails, the call raises, the oldest session is
permanently evicted and closed, and the shortened (possibly empty) list stays
in the mapping as the host's entry — the pre-call state is not restored. -/
theorem get_or_create_connect_failure_state (maxS : Nat) (host : String)
    (freshId now : Nat) (pool : Pool) (oldest : Session) (rest2 : List Session)
    (hhs : poolGet pool host = oldest :: rest2)
    (hconn : ∀ s ∈ oldest :: rest2, s.connected = false)
    (hmax : maxS ≤ (oldest :: rest2).length) :
    (_get_or_create_session maxS host freshId now false pool).ok = none ∧
    (_get_or_create_session maxS host freshId now false pool).evicted =
      some (closeS oldest) ∧
    (_get_or_create_session maxS host freshId now false pool).pool =
      poolSet pool host rest2 ∧
    poolGet (_get_or_create_session maxS host freshId now false pool).pool host = rest2 ∧
    host ∈ ((_get_or_create_session maxS host freshId now false pool).pool.map Prod.fst) := by
  have hfind2 : (oldest :: rest2).find? (fun s => s.connected) = none :=
    find?_connected_eq_none _ hconn
  have hred : _get_or_create_session maxS host freshId now false pool =
      ⟨none, poolSet pool host rest2, some (closeS oldest)⟩ := by
    unfold _get_or_create_session
    simp only [hhs, hfind2, hmax, if_true, Bool.false_eq_true, if_false]
  have hsome : (pool.find? (keyIs host)).isSome :=
    find?_isSome_of_poolGet_ne_nil pool host (by rw [hhs]; exact List.cons_ne_nil _ _)
  rw [hred]
  refine ⟨rfl, rfl, rfl, poolGet_poolSet_self pool host rest2, ?_⟩
  rw [keys_poolSet_of_isSome pool host rest2 hsome]
  exact mem_keys_of_find?_isSome pool host hsome

/-- C10 witness: `maxSessionsPerHost = 1`, one stale session, failing
connect. -/
theorem get_or_create_connect_failure_state_witness :
    (_get_or_create_session 1 "a" 9 100 false [("a", [⟨0, "a", false, 5⟩])]).ok = none ∧
    (_get_or_create_session 1 "a" 9 100 false [("a", [⟨0, "a", false, 5⟩])]).pool =
      [("a", [])] := by
  have h := get_or_create_connect_failure_state 1 "a" 9 100
    [("a", [⟨0, "a", false, 5⟩])] ⟨0, "a", false, 5⟩ [] (by decide) (by decide) (by decide)
  exact ⟨h.1, by decide⟩

/-- C1: for every host, a list no longer than `maxSessionsPerHost` stays no
longer after get-or-create; and when a new session must be created while the
host's list holds exactly `maxSessionsPerHost` entries, exactly the entry at
index 0 is removed and closed, and the new session is appended after the
remaining ones. -/
theorem get_or_create_capacity (maxS : Nat) (host h2 : String) (freshId now : Nat)
    (connectOk : Bool) (pool : Pool)
    (hlen : (poolGet pool h2).length ≤ maxS) :
    (poolGet (_get_or_create_session maxS host freshId now connectOk pool).pool h2).length
        ≤ maxS ∧
    (∀ oldest rest2, poolGet pool host = oldest :: rest2 →
      (∀ s ∈ oldest :: rest2, s.connected = false) →
      (oldest :: rest2).length = maxS → connectOk = true →
      (_get_or_create_session maxS host freshId now connectOk pool).evicted =
          some (closeS oldest) ∧
      poolGet (_get_or_create_session maxS host freshId now connectOk pool).pool host =
          rest2 ++ [⟨freshId, host, true, now⟩] ∧
      (_get_or_create_session maxS host freshId now connectOk pool).ok =
          some ⟨freshId, host, true, now⟩) := by
  cases hf : (poolGet pool host).find? (fun s => s.connected) with
  | some s =>
    have hred : _get_or_create_session maxS host freshId now connectOk pool =
        ⟨some s, pool, none⟩ := by
      unfold _get_or_create_session
      simp only [hf]
    rw [hred]
    refine ⟨hlen, ?_⟩
    intro oldest rest2 hhs hconn _ _
    rw [hhs] at hf
    have := List.find?_some hf
    have hmem := List.mem_of_find?_eq_some hf
    rw [hconn s hmem] at this
    cases this
  | none =>
    cases hhs : poolGet pool host with
    | nil =>
      by_cases hm : maxS ≤ ([] : List Session).length
      · have hred : _get_or_create_session maxS host freshId now connectOk pool =
            ⟨none, pool, none⟩ := by
          unfold _get_or_create_session
          simp only [hhs, List.find?_nil, hm, if_true]
        rw [hred]
        exact ⟨hlen, fun oldest rest2 hc => by simp at hc⟩
      · have hm1 : 1 ≤ maxS := by
          simp only [List.length_nil, Nat.not_le, Nat.lt_iff_add_one_le, Nat.zero_add] at hm
          exact hm
        cases connectOk with
        | true =>
          have hred : _get_or_create_session maxS host freshId now true pool =
              ⟨some ⟨freshId, host, true, now⟩,
               poolSet pool host ([] ++ [⟨freshId, host, true, now⟩]), none⟩ := by
            unfold _get_or_create_session
            simp only [hhs, List.find?_nil, hm, if_false, if_true]
          rw [hred]
          refine ⟨?_, fun oldest rest2 hc => by simp at hc⟩
          by_cases h2h : h2 = host
          · subst h2h
            rw [poolGet_poolSet_self]
            simpa using hm1
          · rw [poolGet_poolSet_ne pool host h2 _ h2h]
            exact hlen
        | false =>
          have hred : _get_or_create_session maxS host freshId now false pool =
              ⟨none, pool, none⟩ := by
            unfold _get_or_create_session
            simp only [hhs, List.find?_nil, hm, if_false, Bool.false_eq_true]
          rw [hred]
          exact ⟨hlen, fun oldest rest2 hc => by simp at hc⟩
    | cons oldest rest2 =>
      have hfind2 : (oldest :: rest2).find? (fun s => s.connected) = none := by
        rw [hhs] at hf
        exact hf
      by_cases hm : maxS ≤ (oldest :: rest2).length
      · cases connectOk with
        | true =>
          have hred : _get_or_create_session maxS host freshId now true pool =
              ⟨some ⟨freshId, host, true, now⟩,
               poolSet (poolSet pool host rest2) host
                 (rest2 ++ [⟨freshId, host, true, now⟩]),
               some (closeS oldest)⟩ := by
            unfold _get_or_create_session
            simp only [hhs, hfind2, hm, if_true]
          rw [hred]
          constructor
          · by_cases h2h : h2 = host
            · subst h2h
              rw [poolGet_poolSet_self]
              rw [hhs] at hlen
              simpa using hlen
            · rw [poolGet_poolSet_ne _ host h2 _ h2h, poolGet_poolSet_ne _ host h2 _ h2h]
              exact hlen
          · intro o r hc _ _ _
            cases hc
            exact ⟨rfl, poolGet_poolSet_self _ _ _, rfl⟩
        | false =>
          have hred : _get_or_create_session maxS host freshId now false pool =
              ⟨none, poolSet pool host rest2, some (closeS oldest)⟩ := by
            unfold _get_or_create_session
            simp only [hhs, hfind2, hm, if_true, Bool.false_eq_true, if_false]
          rw [hred]
          constructor
          · by_cases h2h : h2 = host
            · subst h2h
              rw [poolGet_poolSet_self]
              rw [hhs] at hlen
              simp only [List.length_cons] at hlen
              omega
            · rw [poolGet_poolSet_ne pool host h2 _ h2h]
              exact hlen
          · intro o r hc _ _ hco
            cases hco
      · cases connectOk with
        | true =>
          have hred : _get_or_create_session maxS host freshId now true pool =
              ⟨some ⟨freshId, host, true, now⟩,
               poolSet pool host ((oldest :: rest2) ++ [⟨freshId, host, true, now⟩]),
               none⟩ := by
            unfold _get_or_create_session
            simp only [hhs, hfind2, hm, if_false, if_true]
          rw [hred]
          constructor
          · by_cases h2h : h2 = host
            · subst h2h
              rw [poolGet_poolSet_self]
              simp only [List.length_append, List.length_cons, List.length_nil] at hm ⊢
              omega
            · rw [poolGet_poolSet_ne pool host h2 _ h2h]
              exact hlen
          · intro o r hc _ hlen2 _
            cases hc
            exfalso
            exact hm (Nat.le_of_eq hlen2.symm)
        | false =>
          have hred : _get_or_create_session maxS host freshId now false pool =
              ⟨none, pool, none⟩ := by
            unfold _get_or_create_session
            simp only [hhs, hfind2, hm, if_false, Bool.false_eq_true]
          rw [hred]
          refine ⟨hlen, ?_⟩
          intro o r hc _ _ hco
          cases hco

/-- C1 witness: a full list of two stale sessions with `maxSessionsPerHost = 2`;
the oldest is evicted and closed, the new session appended. -/
theorem get_or_create_capacity_witness :
    (poolGet (_get_or_create_session 2 "a" 9 100 true
        [("a", [⟨0, "a", false, 1⟩, ⟨1, "a", false, 2⟩])]).pool "a").length ≤ 2 ∧
    (_get_or_create_session 2 "a" 9 100 true
        [("a", [⟨0, "a", false, 1⟩, ⟨1, "a", false, 2⟩])]).evicted =
      some (closeS ⟨0, "a", false, 1⟩) ∧
    poolGet (_get_or_create_session 2 "a" 9 100 true
        [("a", [⟨0, "a", false, 1⟩, ⟨1, "a", false, 2⟩])]).pool "a" =
      [⟨1, "a", false, 2⟩] ++ [⟨9, "a", true, 100⟩] := by
  have h := get_or_create_capacity 2 "a" "a" 9 100 true
    [("a", [⟨0, "a", false, 1⟩, ⟨1, "a", false, 2⟩])] (by decide)
  have h2 := h.2 ⟨0, "a", false, 1⟩ [⟨1, "a", false, 2⟩] (by decide) (by decide) (by decide) rfl
  exact ⟨h.1, h2.1, h2.2.1⟩

/-- C2 counterexample: a command failure on host `a`'s only session closes it
in place but the session (object 0) still appears in the pool's mapping for
`a`, contradicting prompt removal. -/
theorem execute_command_failure_session_still_pooled :
    (manager_execute_command ⟨[⟨"a", "", "exec", true⟩], ⟨30, 5⟩⟩ "a" 9 100 true false
        ⟨"a", [], [], true, none⟩ [("a", [⟨0, "a", true, 5⟩])]).result =
      Except.error ExecErr.commandError ∧
    (manager_execute_command ⟨[⟨"a", "", "exec", true⟩], ⟨30, 5⟩⟩ "a" 9 100 true false
        ⟨"a", [], [], true, none⟩ [("a", [⟨0, "a", true, 5⟩])]).pool =
      [("a", [⟨0, "a", false, 100⟩])] := by
  constructor <;> rfl

/-- C2 (amended): when executeCommand fails mid-command on the reused session,
the error propagates and the session is closed in place (`connected = false`)
but remains in the host's list in the pool mapping; it is not removed by the
failing call. -/
theorem execute_command_failure_closes_in_place (cfg : Config) (hc : HostConfig)
    (host : String) (freshId now : Nat) (res : CmdResult) (pool : Pool) (s : Session)
    (hhost : cfg.get_host host = some hc)
    (hfind : (poolGet pool host).find? (fun t => t.connected) = some s) :
    (manager_execute_command cfg host freshId now true false res pool).result =
      Except.error ExecErr.commandError ∧
    closeS { s with last_access := now } ∈
      poolGet (manager_execute_command cfg host freshId now true false res pool).pool host := by
  have hgoc : _get_or_create_session cfg.session.max_sessions_per_host host freshId now true
      pool = ⟨some s, pool, none⟩ := by
    unfold _get_or_create_session
    simp only [hfind]
  have hred : manager_execute_command cfg host freshId now true false res pool =
      ⟨Except.error ExecErr.commandError,
       poolUpdateSession
         (poolUpdateSession pool host s.sid (fun t => { t with last_access := now }))
         host s.sid closeS⟩ := by
    unfold manager_execute_command
    simp only [hhost, hgoc, Bool.false_eq_true, if_false]
  rw [hred]
  refine ⟨rfl, ?_⟩
  rw [poolGet_poolUpdateSession_self, poolGet_poolUpdateSession_self]
  have hs : s ∈ poolGet pool host := List.mem_of_find?_eq_some hfind
  have h1 := List.mem_map_of_mem
    (fun t => if t.sid == s.sid then { t with last_access := now } else t) hs
  simp only [beq_self_eq_true, if_true] at h1
  have h2 := List.mem_map_of_mem (fun t => if t.sid == s.sid then closeS t else t) h1
  simp only [beq_self_eq_true, if_true] at h2
  exact h2

/-- C2 (amended) witness: concrete failing execution on host `b`. -/
theorem execute_command_failure_closes_in_place_witness :
    (manager_execute_command ⟨[⟨"b", "", "shell", false⟩], ⟨30, 5⟩⟩ "b" 9 100 true false
        ⟨"b", [], [], true, none⟩ [("b", [⟨3, "b", true, 7⟩])]).result =
      Except.error ExecErr.commandError ∧
    closeS ⟨3, "b", true, 100⟩ ∈
      poolGet (manager_execute_command ⟨[⟨"b", "", "shell", false⟩], ⟨30, 5⟩⟩ "b" 9 100 true
        false ⟨"b", [], [], true, none⟩ [("b", [⟨3, "b", true, 7⟩])]).pool "b" :=
  execute_command_failure_closes_in_place ⟨[⟨"b", "", "shell", false⟩], ⟨30, 5⟩⟩
    ⟨"b", "", "shell", false⟩ "b" 9 100 ⟨"b", [], [], true, none⟩
    [("b", [⟨3, "b", true, 7⟩])] ⟨3, "b", true, 7⟩ (by decide) (by decide)

theorem cleanupSessions_eq (tm now : Nat) (ss : List Session) :
    cleanupSessions tm now ss =
      (ss.filter (fun s => !is_idle tm now s), (ss.filter (is_idle tm now)).map closeS) := by
  induction ss with
  | nil => rfl
  | cons s rest ih =>
    unfold cleanupSessions
    rw [ih]
    by_cases h : is_idle tm now s = true
    · simp [List.filter_cons, h]
    · simp [List.filter_cons, h]

theorem cleanup_keys_subset (tm now : Nat) (pool : Pool) (h : String)
    (hmem : h ∈ ((_cleanup_idle_sessions tm now pool).1.map Prod.fst)) :
    h ∈ pool.map Prod.fst := by
  induction pool with
  | nil => simp [_cleanup_idle_sessions] at hmem
  | cons e rest ih =>
    obtain ⟨hname, ss⟩ := e
    rw [show _cleanup_idle_sessions tm now ((hname, ss) :: rest) =
        (if (cleanupSessions tm now ss).1.isEmpty
            then (_cleanup_idle_sessions tm now rest).1
            else (hname, (cleanupSessions tm now ss).1) :: (_cleanup_idle_sessions tm now rest).1,
         (cleanupSessions tm now ss).2 ++ (_cleanup_idle_sessions tm now rest).2)
      from rfl] at hmem
    by_cases hemp : (cleanupSessions tm now ss).1.isEmpty = true
    · rw [if_pos hemp] at hmem
      exact List.mem_cons_of_mem _ (ih hmem)
    · rw [if_neg hemp] at hmem
      rw [List.map_cons] at hmem
      rcases List.mem_cons.mp hmem with heq | hmem2
      · rw [List.map_cons]
        exact heq ▸ List.mem_cons_self _ _
      · exact List.mem_cons_of_mem _ (ih hmem2)

/-- C7: after a reaper cleanup pass, every session whose idle predicate held
has been closed and removed, every surviving host entry is exactly the
in-order non-idle remainder of its previous list, and a host's entry is
deleted exactly when no non-idle session remains for it. -/
theorem cleanup_idle_spec (tm now : Nat) (pool : Pool)
    (hnd : (pool.map Prod.fst).Nodup) :
    (∀ e ∈ pool, ∀ s ∈ e.2, is_idle tm now s = true →
        closeS s ∈ (_cleanup_idle_sessions tm now pool).2) ∧
    (∀ e ∈ pool,
        (e.2.filter (fun s => !is_idle tm now s) ≠ [] →
          (e.1, e.2.filter (fun s => !is_idle tm now s)) ∈
            (_cleanup_idle_sessions tm now pool).1) ∧
        (e.2.filter (fun s => !is_idle tm now s) = [] →
          e.1 ∉ ((_cleanup_idle_sessions tm now pool).1.map Prod.fst))) ∧
    (∀ e2 ∈ (_cleanup_idle_sessions tm now pool).1, ∃ ss, (e2.1, ss) ∈ pool ∧
        e2.2 = ss.filter (fun s => !is_idle tm now s) ∧ e2.2 ≠ []) := by
  induction pool with
  | nil =>
    refine ⟨fun e he => ?_, fun e he => ?_, fun e2 he2 => ?_⟩ <;>
      simp_all [_cleanup_idle_sessions]
  | cons e rest ih =>
    obtain ⟨hname, ss⟩ := e
    rw [List.map_cons, List.nodup_cons] at hnd
    obtain ⟨hn1, hn2⟩ := hnd
    obtain ⟨ih1, ih2, ih3⟩ := ih hn2
    have hcl : _cleanup_idle_sessions tm now ((hname, ss) :: rest) =
        (if (ss.filter (fun s => !is_idle tm now s)).isEmpty
            then (_cleanup_idle_sessions tm now rest).1
            else (hname, ss.filter (fun s => !is_idle tm now s)) ::
              (_cleanup_idle_sessions tm now rest).1,
         ((ss.filter (is_idle tm now)).map closeS) ++ (_cleanup_idle_sessions tm now rest).2) := by
      show (if (cleanupSessions tm now ss).1.isEmpty
            then (_cleanup_idle_sessions tm now rest).1
            else (hname, (cleanupSessions tm now ss).1) :: (_cleanup_idle_sessions tm now rest).1,
         (cleanupSessions tm now ss).2 ++ (_cleanup_idle_sessions tm now rest).2) = _
      rw [cleanupSessions_eq]
    rw [hcl]
    refine ⟨?_, ?_, ?_⟩
    · intro e he s hs hidle
      rcases List.mem_cons.mp he with rfl | hmem
      · exact List.mem_append_left _
          (List.mem_map_of_mem closeS (List.mem_filter.mpr ⟨hs, hidle⟩))
      · exact List.mem_append_right _ (ih1 e hmem s hs hidle)
    · intro e he
      rcases List.mem_cons.mp he with rfl | hmem
      · constructor
        · intro hne
          have hemp : ¬(ss.filter (fun s => !is_idle tm now s)).isEmpty = true := by
            simpa [List.isEmpty_iff] using hne
          rw [if_neg hemp]
          exact List.mem_cons_self _ _
        · intro hemp
          rw [hemp]
          simp only [List.isEmpty_nil, if_true]
          intro hmem2
          exact hn1 (cleanup_keys_subset tm now rest _ hmem2)
      · have hp := ih2 e hmem
        constructor
        · intro hne
          have h3 := hp.1 hne
          by_cases hemp : (ss.filter (fun s => !is_idle tm now s)).isEmpty = true
          · rw [if_pos hemp]
            exact h3
          · rw [if_neg hemp]
            exact List.mem_cons_of_mem _ h3
        · intro hfe
          have h3 := hp.2 hfe
          by_cases hemp : (ss.filter (fun s => !is_idle tm now s)).isEmpty = true
          · rw [if_pos hemp]
            exact h3
          · rw [if_neg hemp]
            rw [List.map_cons]
            intro hcon
            rcases List.mem_cons.mp hcon with heq | hmem2
            · exact hn1 (heq ▸ List.mem_map_of_mem Prod.fst hmem)
            · exact h3 hmem2
    · intro e2 he2
      by_cases hemp : (ss.filter (fun s => !is_idle tm now s)).isEmpty = true
      · rw [if_pos hemp] at he2
        obtain ⟨ss2, hss2, heq, hne⟩ := ih3 e2 he2
        exact ⟨ss2, List.mem_cons_of_mem _ hss2, heq, hne⟩
      · rw [if_neg hemp] at he2
        rcases List.mem_cons.mp he2 with rfl | hmem
        · exact ⟨ss, List.mem_cons_self _ _, rfl, by simpa [List.isEmpty_iff] using hemp⟩
        · obtain ⟨ss2, hss2, heq, hne⟩ := ih3 e2 hmem
          exact ⟨ss2, List.mem_cons_of_mem _ hss2, heq, hne⟩

/-- C7 witness: host `a` keeps only its fresh session, host `b` (all idle) is
deleted, the idle sessions are closed. -/
theorem cleanup_idle_spec_witness :
    closeS ⟨0, "a", true, 5⟩ ∈
      (_cleanup_idle_sessions 30 10000
        [("a", [⟨0, "a", true, 5⟩, ⟨1, "a", true, 9000⟩]), ("b", [⟨2, "b", true, 5⟩])]).2 ∧
    ("a", [⟨1, "a", true, 9000⟩]) ∈
      (_cleanup_idle_sessions 30 10000
        [("a", [⟨0, "a", true, 5⟩, ⟨1, "a", true, 9000⟩]), ("b", [⟨2, "b", true, 5⟩])]).1 ∧
    "b" ∉ ((_cleanup_idle_sessions 30 10000
        [("a", [⟨0, "a", true, 5⟩, ⟨1, "a", true, 9000⟩]),
         ("b", [⟨2, "b", true, 5⟩])]).1.map Prod.fst) := by
  have h := cleanup_idle_spec 30 10000
    [("a", [⟨0, "a", true, 5⟩, ⟨1, "a", true, 9000⟩]), ("b", [⟨2, "b", true, 5⟩])] (by decide)
  exact ⟨h.1 ("a", [⟨0, "a", true, 5⟩, ⟨1, "a", true, 9000⟩]) (by decide) ⟨0, "a", true, 5⟩
      (by decide) (by decide),
    (h.2.1 ("a", [⟨0, "a", true, 5⟩, ⟨1, "a", true, 9000⟩]) (by decide)).1 (by decide),
    (h.2.1 ("b", [⟨2, "b", true, 5⟩]) (by decide)).2 (by decide)⟩

theorem extract_middle (noise sm result em : Str)
    (h1 : strFind sm (noise ++ sm ++ result ++ em) = some noise.length)
    (h2 : strFind em (noise ++ sm ++ result ++ em) =
      some (noise.length + sm.length + result.length)) :
    extractBetween (noise ++ sm ++ result ++ em) sm em = result := by
  have hc1 : containsSub (noise ++ sm ++ result ++ em) sm = true := by
    rw [containsSub, h1]
    rfl
  have hc2 : containsSub (noise ++ sm ++ result ++ em) em = true := by
    rw [containsSub, h2]
    rfl
  unfold extractBetween
  rw [hc1, hc2, h1, h2]
  simp only [Bool.and_self, if_true, Option.getD_some]
  have hA : noise ++ sm ++ result ++ em = ((noise ++ sm) ++ result) ++ em := by
    simp [List.append_assoc]
  rw [hA, List.take_left' (by simp [Nat.add_assoc]),
    List.drop_left' (show (noise ++ sm).length = noise.length + sm.length by simp)]

theorem cleanLoop_no_marker (cmdStripped sm em : Str) (ls : List Str) (acc : List Str)
    (hacc : acc ≠ [])
    (hm : ∀ l ∈ ls, containsSub l sm = false ∧ containsSub l em = false) :
    cleanLoop cmdStripped sm em acc ls = acc ++ ls := by
  induction ls generalizing acc with
  | nil => simp [cleanLoop]
  | cons l rest ih =>
    unfold cleanLoop
    have hae : acc.isEmpty = false := by simpa [List.isEmpty_iff] using hacc
    rw [hae, (hm l (List.mem_cons_self l rest)).1, (hm l (List.mem_cons_self l rest)).2]
    simp only [Bool.false_and, Bool.and_false, Bool.or_self, Bool.false_eq_true, if_false]
    rw [ih (acc ++ [l]) (by simp) (fun x hx => hm x (List.mem_cons_of_mem l hx))]
    simp

/-- C3: a buffer of the shape `noise ++ start ++ RESULT ++ end`, where the
sentinels first occur at their visible positions, extracts exactly `RESULT`;
the cleaning pass then drops the leading echoed-command line and trailing
blank lines, keeping the remaining lines verbatim; and when the start
sentinel is absent, extraction falls back to everything before the first end
sentinel. -/
theorem shell_mode_extraction_spec (hostName : String)
    (command noise result sm em echoLine firstLine : Str) (moreLines : List Str)
    (h1 : strFind sm (noise ++ sm ++ result ++ em) = some noise.length)
    (h2 : strFind em (noise ++ sm ++ result ++ em) =
      some (noise.length + sm.length + result.length))
    (h3 : splitLines result = echoLine :: firstLine :: moreLines)
    (h4 : containsSub echoLine (pyStrip command) = true)
    (h5 : (pyStrip firstLine).isEmpty = false)
    (h6 : containsSub firstLine (pyStrip command) = false)
    (h7 : containsSub firstLine sm = false)
    (h8 : containsSub firstLine em = false)
    (h9 : ∀ l ∈ moreLines, containsSub l sm = false ∧ containsSub l em = false) :
    extractBetween (noise ++ sm ++ result ++ em) sm em = result ∧
    (_execute_shell_mode hostName command sm em (noise ++ sm ++ result ++ em)).output =
      joinLines (dropTrailingBlank (firstLine :: moreLines)) ∧
    (∀ noise2, containsSub (noise2 ++ em) sm = false →
      strFind em (noise2 ++ em) = some noise2.length →
      extractBetween (noise2 ++ em) sm em = noise2) := by
  have hex := extract_middle noise sm result em h1 h2
  have hstep2 : cleanLoop (pyStrip command) sm em [] (firstLine :: moreLines) =
      firstLine :: moreLines := by
    unfold cleanLoop
    rw [h5, h6, h7, h8]
    simp only [List.isEmpty_nil, Bool.true_and, Bool.and_true, Bool.false_eq_true, if_false,
      Bool.or_self]
    rw [List.nil_append, cleanLoop_no_marker (pyStrip command) sm em moreLines [firstLine]
      (by simp) h9]
    rfl
  have hstep : cleanLoop (pyStrip command) sm em [] (echoLine :: firstLine :: moreLines) =
      firstLine :: moreLines := by
    unfold cleanLoop
    by_cases hblank : (pyStrip echoLine).isEmpty = true
    · rw [hblank]
      simp only [List.isEmpty_nil, Bool.true_and, if_true]
      exact hstep2
    · have hbf : (pyStrip echoLine).isEmpty = false := by simpa using hblank
      rw [hbf, h4]
      simp only [List.isEmpty_nil, Bool.true_and, Bool.and_true, Bool.false_eq_true, if_false,
        if_true]
      exact hstep2
  refine ⟨hex, ?_, ?_⟩
  · show cleanOutput command sm em (extractBetween (noise ++ sm ++ result ++ em) sm em) =
      joinLines (dropTrailingBlank (firstLine :: moreLines))
    rw [hex]
    unfold cleanOutput
    rw [h3, hstep]
  · intro noise2 hns hfe
    have hce : containsSub (noise2 ++ em) em = true := by
      rw [containsSub, hfe]
      rfl
    unfold extractBetween
    rw [hns, hce, hfe]
    simp only [Bool.false_and, Bool.false_eq_true, if_false, if_true, Option.getD_some]
    exact List.take_left' rfl

/-- C3 witness: buffer `xx` + start sentinel + `ls\nfile1\nfile2\n` + end
sentinel, command `ls`: extraction gives the middle text and cleaning leaves
`file1\nfile2`. -/
theorem shell_mode_extraction_spec_witness :
    extractBetween (chars "xx" ++ chars "S7" ++ chars "ls\nfile1\nfile2\n" ++ chars "E9")
        (chars "S7") (chars "E9") = chars "ls\nfile1\nfile2\n" ∧
    (_execute_shell_mode "h" (chars "ls") (chars "S7") (chars "E9")
        (chars "xx" ++ chars "S7" ++ chars "ls\nfile1\nfile2\n" ++ chars "E9")).output =
      chars "file1\nfile2" := by
  have h := shell_mode_extraction_spec "h" (chars "ls") (chars "xx")
    (chars "ls\nfile1\nfile2\n") (chars "S7") (chars "E9") (chars "ls") (chars "file1")
    [chars "file2", []] (by decide) (by decide) (by decide) (by decide) (by decide)
    (by decide) (by decide) (by decide) (by decide)
  refine ⟨h.1, ?_⟩
  rw [h.2.1]
  decide

end SshMcpBridge
